import Mathlib

/-!
Verification of the query-resolution pipeline of a legal RAG system.

Shallow embedding of:
  * intent classification        (src/core/intent_classifier.py)
  * hybrid retrieval fusion      (src/core/retriever.py)
  * cross-encoder reranking      (src/core/reranker.py)
  * token-budgeted context build (src/core/llm_handler.py)
  * answer validation            (src/validation/answer_validator.py)
  * orchestration workflow       (src/orchestration/workflow.py)

Modelling conventions: Python strings are `String` (processed as `List Char`),
Python floats are `ℚ`, Python dicts (insertion-ordered) are association lists,
raised exceptions are `Except` values, and in-place mutation of a caller's
list is made explicit by returning the post-call value of that list.
-/

/-! ## Python string primitives -/

/-- Python regex `\s` restricted to the ASCII whitespace our inputs use
(space, tab, newline, carriage return). -/
def isSpaceC (c : Char) : Bool := c = ' ' || c = '\t' || c = '\n' || c = '\r'

/-- Python regex `\d` (ASCII digits). -/
def isDigitC (c : Char) : Bool := '0' ≤ c && c ≤ '9'

/-- Python regex `[a-z]`. -/
def isLowerC (c : Char) : Bool := 'a' ≤ c && c ≤ 'z'

/-- Match the literal character list `pat` at the head of `s`; on success
return the remaining characters. -/
def dropPat : List Char → List Char → Option (List Char)
  | [], s => some s
  | _ :: _, [] => none
  | a :: as, b :: bs => if a = b then dropPat as bs else none

/-- Does `pat` occur as a contiguous substring of `s`?  (list level) -/
def containsSubL (pat : List Char) : List Char → Bool
  | [] => (dropPat pat []).isSome
  | c :: cs => (dropPat pat (c :: cs)).isSome || containsSubL pat cs

/-- Python `pat in hay` (substring containment). -/
def pyContains (hay pat : String) : Bool := containsSubL pat.data hay.data

/-- Python `s.startswith(pat)`. -/
def startsWithStr (s pat : String) : Bool := (dropPat pat.data s.data).isSome

/-- Python `s.lower()` (ASCII inputs). -/
def pyLower (s : String) : String := ⟨s.data.map Char.toLower⟩

/-- Word counter state machine: `inw` records whether the previous character
was part of a word.  Counts the words of Python `s.split()`. -/
def countWordsAux : List Char → Bool → Nat
  | [], _ => 0
  | c :: cs, inw =>
    if isSpaceC c then countWordsAux cs false
    else (if inw then 0 else 1) + countWordsAux cs true

/-- Python `len(s.split())`. -/
def wordCount (s : String) : Nat := countWordsAux s.data false

/-! ## Regex fragments used by the classifier and the validator -/

/-- Greedily drop whitespace. -/
def dropSpacesGreedy : List Char → List Char
  | [] => []
  | c :: cs => if isSpaceC c then dropSpacesGreedy cs else c :: cs

/-- Regex `\s+` at the head: at least one whitespace character, greedy. -/
def dropSpaces1 : List Char → Option (List Char)
  | [] => none
  | c :: cs => if isSpaceC c then some (dropSpacesGreedy cs) else none

/-- Greedily take a run of digits. -/
def takeDigits : List Char → List Char × List Char
  | [] => ([], [])
  | c :: cs =>
    if isDigitC c then
      let p := takeDigits cs
      (c :: p.1, p.2)
    else ([], c :: cs)

/-- Regex `(\d+[a-z]?)` at the head: the captured group and the rest. -/
def matchNumTag (cs : List Char) : Option (List Char × List Char) :=
  match cs with
  | [] => none
  | c :: _ =>
    if isDigitC c then
      let p := takeDigits cs
      match p.2 with
      | d :: r2 => if isLowerC d then some (p.1 ++ [d], r2) else some (p.1, p.2)
      | [] => some (p.1, [])
    else none

/-- Regex `lit\s+(\d+[a-z]?)` anchored at the head of `cs`:
captured group and rest on success. -/
def matchSecPat (lit : List Char) (cs : List Char) : Option (List Char × List Char) :=
  match dropPat lit cs with
  | none => none
  | some r1 =>
    match dropSpaces1 r1 with
    | none => none
    | some r2 => matchNumTag r2

/-- Python `re.findall(lit + r"\s+(\d+[a-z]?)", s)`: scan left to right,
emit each captured group, continue after the end of each match.  `fuel`
bounds the recursion; any `fuel` above the length of the scanned list is
exact. -/
def findAllAux (lit : List Char) : Nat → List Char → List (List Char)
  | 0, _ => []
  | _, [] => []
  | fuel + 1, c :: cs =>
    match matchSecPat lit (c :: cs) with
    | some p => p.1 :: findAllAux lit fuel p.2
    | none => findAllAux lit fuel cs

/-- Python `re.findall(lit + r"\s+(\d+[a-z]?)", s)`. -/
def findAll (lit : String) (s : String) : List String :=
  (findAllAux lit.data (s.data.length + 1) s.data).map (fun l => ⟨l⟩)

/-! ## Intent classifier (src/core/intent_classifier.py) -/

structure LegalIntent where
  domain : String
  law_type : String
  specific_sections : List String
  keywords : List String
  query_type : String
  deriving Repr, DecidableEq

/-- `IntentClassifier.DOMAIN_KEYWORDS`, in source (insertion) order. -/
def DOMAIN_KEYWORDS : List (String × List String) :=
  [("constitutional", ["article", "fundamental rights", "directive principles", "constitution"]),
   ("criminal", ["ipc", "bns", "offense", "punishment", "cognizable", "bailable", "section"]),
   ("procedure_criminal", ["crpc", "bnss", "arrest", "bail", "investigation", "trial"]),
   ("civil", ["cpc", "suit", "decree", "appeal", "civil procedure"]),
   ("cyber", ["it act", "cyber", "electronic", "digital signature", "hacking"])]

/-- `IntentClassifier.SECTION_PATTERNS` keys, in source order; each key `ty`
stands for the regex `ty\s+(\d+[a-z]?)`. -/
def SECTION_PATTERNS : List String :=
  ["article", "section", "ipc", "bns", "crpc", "bnss"]

/-- `IntentClassifier._extract_sections`. -/
def extract_sections (query : String) : List String :=
  SECTION_PATTERNS.foldl
    (fun acc ty => acc ++ (findAll ty query).map (fun m => ty ++ "_" ++ m)) []

/-- `IntentClassifier._detect_domain`. -/
def detect_domain (query : String) (sections : List String) : String :=
  if sections.any (fun s => pyContains s "article") then "constitutional"
  else if sections.any (fun s => startsWithStr s "ipc_" || startsWithStr s "bns_") then
    "criminal"
  else if sections.any (fun s => startsWithStr s "crpc_" || startsWithStr s "bnss_") then
    "procedure_criminal"
  else
    match DOMAIN_KEYWORDS.find? (fun p => p.2.any (fun kw => pyContains query kw)) with
    | some p => p.1
    | none => "general"

/-- `IntentClassifier._map_to_law`.  Note the direction of the defaults:
`criminal` maps to `"bns"` only when the query or a citation mentions `bns`,
and otherwise to `"ipc"`; `procedure_criminal` maps to `"bnss"` only when
`bnss` is mentioned, and otherwise to `"crpc"`. -/
def map_to_law (domain query : String) (sections : List String) : String :=
  if domain = "constitutional" then "constitution"
  else if domain = "criminal" then
    (if pyContains query "bns" || sections.any (fun s => pyContains s "bns_") then "bns"
     else "ipc")
  else if domain = "procedure_criminal" then
    (if pyContains query "bnss" || sections.any (fun s => pyContains s "bnss_") then "bnss"
     else "crpc")
  else if domain = "civil" then "cpc"
  else if domain = "cyber" then "it_act"
  else "bns"

/-- The fixed vocabulary of `IntentClassifier._extract_keywords`. -/
def legal_keywords : List String :=
  ["bailable", "cognizable", "non-bailable", "non-cognizable",
   "imprisonment", "fine", "punishment", "offense",
   "arrest", "warrant", "summons", "bail"]

/-- `IntentClassifier._extract_keywords`. -/
def extract_keywords (query : String) : List String :=
  legal_keywords.filter (fun kw => pyContains query kw)

/-- `IntentClassifier._classify_query_type`. -/
def classify_query_type (query : String) : String :=
  if ["what is", "define", "meaning"].any (fun w => pyContains query w) then "definition"
  else if ["punishment", "penalty", "fine", "imprisonment"].any (fun w => pyContains query w) then
    "penalty"
  else if ["procedure", "process", "how to"].any (fun w => pyContains query w) then "procedure"
  else if ["right", "can i", "am i allowed"].any (fun w => pyContains query w) then "rights"
  else "general"

/-- `IntentClassifier.classify`. -/
def classify (query : String) : LegalIntent :=
  let query_lower := pyLower query
  let sections := extract_sections query_lower
  let domain := detect_domain query_lower sections
  let law_type := map_to_law domain query_lower sections
  let keywords := extract_keywords query_lower
  let query_type := classify_query_type query_lower
  ⟨domain, law_type, sections, keywords, query_type⟩

/-! ## Claims C2 and C8 -/

/-- C8: `classify "Section 302 IPC punishment"` yields domain `criminal`,
law_type `ipc`, a `section_302` entry among the specific sections, and
query_type `penalty`. -/
theorem C8_classify_section302 :
    (classify "Section 302 IPC punishment").domain = "criminal"
    ∧ (classify "Section 302 IPC punishment").law_type = "ipc"
    ∧ "section_302" ∈ (classify "Section 302 IPC punishment").specific_sections
    ∧ (classify "Section 302 IPC punishment").query_type = "penalty" := by
  decide

/-- C2 counterexample: the query "punishment for theft" is classified into the
criminal domain, mentions `ipc` neither in the query text nor in any extracted
citation, and yet its law_type is `ipc`, not the `bns` the claim requires. -/
theorem C2_counterexample :
    (classify "punishment for theft").domain = "criminal"
    ∧ pyContains (pyLower "punishment for theft") "ipc" = false
    ∧ (classify "punishment for theft").specific_sections.any
        (fun s => pyContains s "ipc") = false
    ∧ (classify "punishment for theft").law_type = "ipc"
    ∧ (classify "punishment for theft").law_type ≠ "bns" := by
  decide

/-- C2 amended: constitutional maps to `constitution`, civil to `cpc`, cyber to
`it_act`, and any unmapped domain defaults to `bns`; but the criminal domain
resolves to `ipc` unless the query text or a citation mentions `bns` (in which
case `bns`), and procedure_criminal resolves to `crpc` unless `bnss` is
mentioned (in which case `bnss`). -/
theorem C2_law_type_mapping (query : String) :
    ((classify query).domain = "criminal" →
      (classify query).law_type =
        (if pyContains (pyLower query) "bns"
            || (extract_sections (pyLower query)).any (fun s => pyContains s "bns_")
         then "bns" else "ipc"))
    ∧ ((classify query).domain = "procedure_criminal" →
      (classify query).law_type =
        (if pyContains (pyLower query) "bnss"
            || (extract_sections (pyLower query)).any (fun s => pyContains s "bnss_")
         then "bnss" else "crpc"))
    ∧ ((classify query).domain = "constitutional" → (classify query).law_type = "constitution")
    ∧ ((classify query).domain = "civil" → (classify query).law_type = "cpc")
    ∧ ((classify query).domain = "cyber" → (classify query).law_type = "it_act")
    ∧ ((classify query).domain ∉
        ["constitutional", "criminal", "procedure_criminal", "civil", "cyber"] →
      (classify query).law_type = "bns") := by
  simp only [classify]
  refine ⟨fun h => ?_, fun h => ?_, fun h => ?_, fun h => ?_, fun h => ?_, fun h => ?_⟩
  · rw [map_to_law, if_neg (by rw [h]; decide), if_pos h]
  · rw [map_to_law, if_neg (by rw [h]; decide), if_neg (by rw [h]; decide), if_pos h]
  · rw [map_to_law, if_pos h]
  · rw [map_to_law, if_neg (by rw [h]; decide), if_neg (by rw [h]; decide),
      if_neg (by rw [h]; decide), if_pos h]
  · rw [map_to_law, if_neg (by rw [h]; decide), if_neg (by rw [h]; decide),
      if_neg (by rw [h]; decide), if_neg (by rw [h]; decide), if_pos h]
  · simp only [List.mem_cons, List.not_mem_nil, or_false, not_or] at h
    obtain ⟨h1, h2, h3, h4, h5⟩ := h
    rw [map_to_law, if_neg h1, if_neg h2, if_neg h3, if_neg h4, if_neg h5]

/-- C2 witness: the amended mapping evaluated on a concrete criminal-domain
query that mentions neither `ipc` nor `bns`. -/
theorem C2_law_type_mapping_witness :
    (classify "punishment for theft").law_type =
      (if pyContains (pyLower "punishment for theft") "bns"
          || (extract_sections (pyLower "punishment for theft")).any
              (fun s => pyContains s "bns_")
       then "bns" else "ipc") :=
  (C2_law_type_mapping "punishment for theft").1 (by decide)

/-! ## Stable descending sort, the model of Python `list.sort(key=..., reverse=True)` -/

/-- Insert `x` into a list that is descending-sorted by `key`, placing it
before the first element whose key is `≤` its own.  Elements with a strictly
greater key stay in front, elements with an equal key end up behind `x`. -/
def insertDescBy {α : Type} (key : α → ℚ) (x : α) : List α → List α
  | [] => [x]
  | y :: ys => if key y ≤ key x then x :: y :: ys else y :: insertDescBy key x ys

/-- Stable descending sort by `key`.  Python's `list.sort` is stable, and a
stable sort's output is uniquely determined by the key order together with
stability, so this insertion sort computes exactly the list the source's
`sort(key=..., reverse=True)` computes. -/
def sortDescBy {α : Type} (key : α → ℚ) : List α → List α
  | [] => []
  | x :: xs => insertDescBy key x (sortDescBy key xs)

theorem insertDescBy_perm {α : Type} (key : α → ℚ) (x : α) (l : List α) :
    (insertDescBy key x l).Perm (x :: l) := by
  induction l with
  | nil => simp [insertDescBy]
  | cons y ys ih =>
    rw [insertDescBy]
    by_cases h : key y ≤ key x
    · rw [if_pos h]
    · rw [if_neg h]
      exact (ih.cons y).trans (List.Perm.swap x y ys)

theorem sortDescBy_perm {α : Type} (key : α → ℚ) (l : List α) :
    (sortDescBy key l).Perm l := by
  induction l with
  | nil => simp [sortDescBy]
  | cons x xs ih =>
    rw [sortDescBy]
    exact (insertDescBy_perm key x (sortDescBy key xs)).trans (ih.cons x)

theorem mem_sortDescBy {α : Type} (key : α → ℚ) (l : List α) (a : α) :
    a ∈ sortDescBy key l ↔ a ∈ l :=
  (sortDescBy_perm key l).mem_iff

theorem mem_insertDescBy {α : Type} (key : α → ℚ) (x : α) (l : List α) (a : α) :
    a ∈ insertDescBy key x l ↔ a = x ∨ a ∈ l := by
  rw [(insertDescBy_perm key x l).mem_iff, List.mem_cons]

theorem insertDescBy_pairwise {α : Type} (key : α → ℚ) (x : α) (l : List α)
    (h : l.Pairwise (fun a b => key b ≤ key a)) :
    (insertDescBy key x l).Pairwise (fun a b => key b ≤ key a) := by
  induction l with
  | nil => simp [insertDescBy]
  | cons y ys ih =>
    rw [insertDescBy]
    rcases List.pairwise_cons.mp h with ⟨hy, hys⟩
    by_cases hxy : key y ≤ key x
    · rw [if_pos hxy]
      refine List.pairwise_cons.mpr ⟨?_, h⟩
      intro z hz
      rcases List.mem_cons.mp hz with rfl | hz
      · exact hxy
      · exact (hy z hz).trans hxy
    · rw [if_neg hxy]
      refine List.pairwise_cons.mpr ⟨?_, ih hys⟩
      intro z hz
      rcases (mem_insertDescBy key x ys z).mp hz with rfl | hz
      · exact le_of_lt (lt_of_not_le hxy)
      · exact hy z hz

theorem sortDescBy_pairwise {α : Type} (key : α → ℚ) (l : List α) :
    (sortDescBy key l).Pairwise (fun a b => key b ≤ key a) := by
  induction l with
  | nil => simp [sortDescBy]
  | cons x xs ih => exact insertDescBy_pairwise key x _ ih

theorem insertDescBy_filter_key {α : Type} (key : α → ℚ) (x : α) (l : List α) (q : ℚ) :
    (insertDescBy key x l).filter (fun a => key a = q) =
      if key x = q then x :: l.filter (fun a => key a = q)
      else l.filter (fun a => key a = q) := by
  induction l with
  | nil =>
    by_cases hx : key x = q
    · simp [insertDescBy, List.filter, hx]
    · simp [insertDescBy, List.filter, hx]
  | cons y ys ih =>
    rw [insertDescBy]
    by_cases hxy : key y ≤ key x
    · rw [if_pos hxy]
      by_cases hx : key x = q
      · simp [List.filter_cons, hx]
      · simp [List.filter_cons, hx]
    · rw [if_neg hxy]
      have hylt : key x < key y := lt_of_not_le hxy
      by_cases hy : key y = q
      · have hx : ¬ key x = q := by
          intro hx; exact absurd (hx.trans hy.symm) (ne_of_lt hylt)
        rw [if_neg hx]
        simp [List.filter_cons, hy, hx, ih]
      · by_cases hx : key x = q
        · rw [if_pos hx]
          simp [List.filter_cons, hy, hx, ih]
        · rw [if_neg hx]
          simp [List.filter_cons, hy, hx, ih]

/-- Stability of the sort, stated through filtering: within every key-value
class the sorted list keeps the elements in their original order. -/
theorem sortDescBy_filter_key {α : Type} (key : α → ℚ) (l : List α) (q : ℚ) :
    (sortDescBy key l).filter (fun a => key a = q) = l.filter (fun a => key a = q) := by
  induction l with
  | nil => simp [sortDescBy]
  | cons x xs ih =>
    rw [sortDescBy, insertDescBy_filter_key]
    by_cases hx : key x = q
    · rw [if_pos hx, ih]
      simp [List.filter, hx]
    · rw [if_neg hx, ih]
      simp [List.filter, hx]

/-! ## Hybrid retriever (src/core/retriever.py) -/

/-- A collaborator search result: the dict returned by `VectorStore.search` /
`KeywordIndex.search`, restricted to the keys the retriever reads
(`chunk_id` and `score`; the remaining chunk payload is carried through
`result.copy()` untouched and is irrelevant to every fusion claim). -/
structure SearchResult where
  chunk_id : String
  score : ℚ
  deriving Repr, DecidableEq

/-- A fused entry of `results_map`: the copied result dict after the score
keys have been written. -/
structure ScoredCandidate where
  chunk_id : String
  score : ℚ            -- the original 'score' key, kept by `result.copy()`
  vector_score : ℚ
  keyword_score : ℚ
  final_score : ℚ      -- written by the last loop of `_merge_results`
  deriving Repr, DecidableEq

/-- Python `chunk_id in results_map`. -/
def containsKey (m : List ScoredCandidate) (cid : String) : Bool :=
  m.any (fun e => e.chunk_id = cid)

/-- The entry written for a vector result: `result.copy()` then
`vector_score = score`, `keyword_score = 0.0`.  (`final_score` is
overwritten by the final loop of `_merge_results` before it is ever read;
`0` is the placeholder for the not-yet-present dict key.) -/
def vecEntry (r : SearchResult) : ScoredCandidate :=
  ⟨r.chunk_id, r.score, r.score, 0, 0⟩

/-- The entry written for a keyword result whose chunk is not yet in the map:
`result.copy()` then `vector_score = 0.0`, `keyword_score = score`. -/
def keyEntry (r : SearchResult) : ScoredCandidate :=
  ⟨r.chunk_id, r.score, 0, r.score, 0⟩

/-- One iteration of the vector loop of `_merge_results`.  Assigning
`results_map[chunk_id]` keeps the position of an existing key and appends a
fresh key at the end (Python dict insertion order). -/
def add_vector_result (m : List ScoredCandidate) (r : SearchResult) : List ScoredCandidate :=
  if containsKey m r.chunk_id then
    m.map (fun e => if e.chunk_id = r.chunk_id then vecEntry r else e)
  else m ++ [vecEntry r]

/-- One iteration of the keyword loop of `_merge_results`: an existing entry
only gets its `keyword_score` set, a missing chunk is appended. -/
def add_keyword_result (m : List ScoredCandidate) (r : SearchResult) : List ScoredCandidate :=
  if containsKey m r.chunk_id then
    m.map (fun e =>
      if e.chunk_id = r.chunk_id then { e with keyword_score := r.score } else e)
  else m ++ [keyEntry r]

/-- `HybridRetriever._merge_results`, with the configured weights passed
explicitly. -/
def merge_results (vw kw : ℚ) (vector_results keyword_results : List SearchResult) :
    List ScoredCandidate :=
  let m1 := vector_results.foldl add_vector_result []
  let m2 := keyword_results.foldl add_keyword_result m1
  m2.map (fun e => { e with final_score := vw * e.vector_score + kw * e.keyword_score })

/-- `HybridRetriever.retrieve` as a function of the two collaborator result
lists: merge, sort descending by `final_score` (stable), truncate to
`top_k`. -/
def retrieve (vw kw : ℚ) (vector_results keyword_results : List SearchResult)
    (top_k : Nat) : List ScoredCandidate :=
  (sortDescBy (fun e => e.final_score)
    (merge_results vw kw vector_results keyword_results)).take top_k

/-! ### Fusion-map invariants -/

theorem containsKey_eq_any (m : List ScoredCandidate) (cid : String) :
    containsKey m cid = (m.map (fun e => e.chunk_id)).any (fun i => i = cid) := by
  induction m with
  | nil => rfl
  | cons e m0 ih =>
    simp only [containsKey, List.any_cons] at ih ⊢
    rw [List.map_cons, List.any_cons, ih]

theorem add_vector_result_ids (m : List ScoredCandidate) (r : SearchResult) :
    (add_vector_result m r).map (fun e => e.chunk_id) =
      if containsKey m r.chunk_id then m.map (fun e => e.chunk_id)
      else m.map (fun e => e.chunk_id) ++ [r.chunk_id] := by
  rw [add_vector_result]
  by_cases h : containsKey m r.chunk_id
  · rw [if_pos h, if_pos h, List.map_map]
    refine List.map_congr_left fun e _ => ?_
    by_cases he : e.chunk_id = r.chunk_id
    · simp [Function.comp, he, vecEntry]
    · simp [Function.comp, he]
  · rw [if_neg h, if_neg h]
    simp [vecEntry]

theorem add_keyword_result_ids (m : List ScoredCandidate) (r : SearchResult) :
    (add_keyword_result m r).map (fun e => e.chunk_id) =
      if containsKey m r.chunk_id then m.map (fun e => e.chunk_id)
      else m.map (fun e => e.chunk_id) ++ [r.chunk_id] := by
  rw [add_keyword_result]
  by_cases h : containsKey m r.chunk_id
  · rw [if_pos h, if_pos h, List.map_map]
    refine List.map_congr_left fun e _ => ?_
    by_cases he : e.chunk_id = r.chunk_id
    · simp [Function.comp, he]
    · simp [Function.comp, he]
  · rw [if_neg h, if_neg h]
    simp [keyEntry]

/-- Insertion order of a Python dict built by repeated
`m[k] = v`: assigning an existing key keeps its position, a fresh key is
appended; folding a result list with distinct chunk ids therefore appends
exactly the ids absent from the initial map, in list order. -/
theorem foldl_step_ids (step : List ScoredCandidate → SearchResult → List ScoredCandidate)
    (hstep : ∀ m r, (step m r).map (fun e => e.chunk_id) =
      if containsKey m r.chunk_id then m.map (fun e => e.chunk_id)
      else m.map (fun e => e.chunk_id) ++ [r.chunk_id]) :
    ∀ (rs : List SearchResult) (m : List ScoredCandidate),
      (rs.map (fun r => r.chunk_id)).Nodup →
      (rs.foldl step m).map (fun e => e.chunk_id) =
        m.map (fun e => e.chunk_id)
          ++ (rs.filter (fun r => !containsKey m r.chunk_id)).map (fun r => r.chunk_id) := by
  intro rs
  induction rs with
  | nil => intro m _; simp
  | cons r rest ih =>
    intro m hnd
    rw [List.map_cons, List.nodup_cons] at hnd
    obtain ⟨hr, hnd'⟩ := hnd
    rw [List.foldl_cons]
    by_cases hc : containsKey m r.chunk_id
    · have h1 : (step m r).map (fun e => e.chunk_id) = m.map (fun e => e.chunk_id) := by
        rw [hstep, if_pos hc]
      have hck : (fun r' : SearchResult => !containsKey (step m r) r'.chunk_id)
          = (fun r' : SearchResult => !containsKey m r'.chunk_id) := by
        funext r'
        rw [containsKey_eq_any, containsKey_eq_any, h1]
      rw [ih (step m r) hnd', h1, hck, List.filter_cons]
      simp [hc]
    · have h1 : (step m r).map (fun e => e.chunk_id)
          = m.map (fun e => e.chunk_id) ++ [r.chunk_id] := by
        rw [hstep, if_neg hc]
      have hck : ∀ cid, containsKey (step m r) cid
          = (containsKey m cid || (r.chunk_id = cid)) := by
        intro cid
        rw [containsKey_eq_any, containsKey_eq_any, h1, List.any_append]
        simp
      have hfil : rest.filter (fun r' => !containsKey (step m r) r'.chunk_id)
          = rest.filter (fun r' => !containsKey m r'.chunk_id) := by
        refine List.filter_congr fun r' hr' => ?_
        have hne : ¬ (r.chunk_id = r'.chunk_id) := by
          intro he
          exact hr (he ▸ List.mem_map_of_mem (fun x => x.chunk_id) hr')
        rw [hck, decide_eq_false hne, Bool.or_false]
      rw [ih (step m r) hnd', h1, hfil, List.filter_cons]
      simp [hc]

theorem foldl_add_vector_ids (vr : List SearchResult)
    (hv : (vr.map (fun r => r.chunk_id)).Nodup) :
    ((vr.foldl add_vector_result []).map (fun e => e.chunk_id)) =
      vr.map (fun r => r.chunk_id) := by
  rw [foldl_step_ids add_vector_result add_vector_result_ids vr [] hv]
  have : vr.filter (fun r => !containsKey [] r.chunk_id) = vr :=
    List.filter_eq_self.mpr fun r _ => rfl
  rw [this]
  rfl

/-- Every entry of `results_map` after the vector loop has
`keyword_score = 0`. -/
theorem foldl_add_vector_keyword_zero (vr : List SearchResult) :
    ∀ (m : List ScoredCandidate), (∀ e ∈ m, e.keyword_score = 0) →
      ∀ e ∈ vr.foldl add_vector_result m, e.keyword_score = 0 := by
  induction vr with
  | nil => intro m hm e he; exact hm e he
  | cons r rest ih =>
    intro m hm e he
    rw [List.foldl_cons] at he
    refine ih (add_vector_result m r) ?_ e he
    intro e' he'
    rw [add_vector_result] at he'
    by_cases hc : containsKey m r.chunk_id
    · rw [if_pos hc] at he'
      obtain ⟨e0, he0, rfl⟩ := List.mem_map.mp he'
      by_cases h0 : e0.chunk_id = r.chunk_id
      · simp only [h0, if_pos rfl]; rfl
      · simp only [if_neg h0]; exact hm e0 he0
    · rw [if_neg hc] at he'
      rcases List.mem_append.mp he' with h | h
      · exact hm e' h
      · rw [List.mem_singleton.mp h]; rfl

/-- Every entry of `results_map` after the vector loop stems from some
vector result. -/
theorem mem_foldl_add_vector (vr : List SearchResult) :
    ∀ (m : List ScoredCandidate), ∀ e ∈ vr.foldl add_vector_result m,
      e ∈ m ∨ ∃ r ∈ vr, e = vecEntry r := by
  induction vr with
  | nil => intro m e he; exact Or.inl he
  | cons r rest ih =>
    intro m e he
    rw [List.foldl_cons] at he
    rcases ih (add_vector_result m r) e he with h | ⟨r', hr', rfl⟩
    · rw [add_vector_result] at h
      by_cases hc : containsKey m r.chunk_id
      · rw [if_pos hc] at h
        obtain ⟨e0, he0, rfl⟩ := List.mem_map.mp h
        by_cases h0 : e0.chunk_id = r.chunk_id
        · exact Or.inr ⟨r, List.mem_cons_self r rest, by rw [if_pos h0]⟩
        · exact Or.inl (by rw [if_neg h0]; exact he0)
      · rw [if_neg hc] at h
        rcases List.mem_append.mp h with h | h
        · exact Or.inl h
        · exact Or.inr ⟨r, List.mem_cons_self r rest, List.mem_singleton.mp h⟩
    · exact Or.inr ⟨r', List.mem_cons_of_mem r hr', rfl⟩

/-- Overwriting the `keyword_score` of the entries keyed by `r.chunk_id`
leaves the entries of any other chunk id untouched. -/
theorem filter_map_keyword (r : SearchResult) (cid : String) (hr : r.chunk_id ≠ cid) :
    ∀ m : List ScoredCandidate,
      (m.map (fun e =>
          if e.chunk_id = r.chunk_id then { e with keyword_score := r.score } else e)).filter
          (fun e => e.chunk_id = cid) =
        m.filter (fun e => e.chunk_id = cid) := by
  intro m
  induction m with
  | nil => rfl
  | cons e0 m0 ihm =>
    rw [List.map_cons, List.filter_cons, List.filter_cons, ihm]
    by_cases h0 : e0.chunk_id = r.chunk_id
    · rw [if_pos h0]
      simp [h0, hr]
    · rw [if_neg h0]

/-- The keyword loop leaves the entries of any chunk id it never touches
untouched (stated through filtering by that id). -/
theorem foldl_add_keyword_filter (kr : List SearchResult) :
    ∀ (m : List ScoredCandidate) (cid : String), (∀ r ∈ kr, r.chunk_id ≠ cid) →
      (kr.foldl add_keyword_result m).filter (fun e => e.chunk_id = cid) =
        m.filter (fun e => e.chunk_id = cid) := by
  induction kr with
  | nil => intro m cid _; rfl
  | cons r rest ih =>
    intro m cid hne
    rw [List.foldl_cons,
      ih (add_keyword_result m r) cid (fun r' hr' => hne r' (List.mem_cons_of_mem r hr'))]
    have hr : r.chunk_id ≠ cid := hne r (List.mem_cons_self r rest)
    rw [add_keyword_result]
    by_cases hc : containsKey m r.chunk_id
    · rw [if_pos hc, filter_map_keyword r cid hr m]
    · rw [if_neg hc, List.filter_append]
      have : [keyEntry r].filter (fun e => e.chunk_id = cid) = [] := by
        simp [keyEntry, hr]
      rw [this, List.append_nil]

/-- The keyword loop preserves "every entry of this chunk id has zero
vector score" (it only writes `keyword_score`, and the entries it creates
carry `vector_score = 0`). -/
theorem foldl_add_keyword_vector_zero (kr : List SearchResult) :
    ∀ (m : List ScoredCandidate) (cid : String),
      (∀ e ∈ m, e.chunk_id = cid → e.vector_score = 0) →
      ∀ e ∈ kr.foldl add_keyword_result m, e.chunk_id = cid → e.vector_score = 0 := by
  induction kr with
  | nil => intro m cid hm e he; exact hm e he
  | cons r rest ih =>
    intro m cid hm e he
    rw [List.foldl_cons] at he
    refine ih (add_keyword_result m r) cid ?_ e he
    intro e' he' hid
    rw [add_keyword_result] at he'
    by_cases hc : containsKey m r.chunk_id
    · rw [if_pos hc] at he'
      obtain ⟨e0, he0, rfl⟩ := List.mem_map.mp he'
      by_cases h0 : e0.chunk_id = r.chunk_id
      · rw [if_pos h0] at hid ⊢
        exact hm e0 he0 hid
      · rw [if_neg h0] at hid ⊢
        exact hm e0 he0 hid
    · rw [if_neg hc] at he'
      rcases List.mem_append.mp he' with h | h
      · exact hm e' h hid
      · rw [List.mem_singleton.mp h]; rfl

theorem mem_retrieve_mem_merge (vw kw : ℚ) (vr kr : List SearchResult) (k : Nat)
    (e : ScoredCandidate) (he : e ∈ retrieve vw kw vr kr k) :
    e ∈ merge_results vw kw vr kr := by
  rw [retrieve] at he
  exact (mem_sortDescBy _ _ e).mp (List.take_subset k _ he)

/-! ## Claims C1, C4 and C9 -/

/-- C1: every candidate in the fused output of `HybridRetriever.retrieve` has
`final_score = vector_weight * vector_score + keyword_weight * keyword_score`;
a chunk present only in the vector results has `keyword_score = 0` exactly,
and a chunk present only in the keyword results has `vector_score = 0`
exactly. -/
theorem C1_fusion_scores (vw kw : ℚ) (vr kr : List SearchResult) (top_k : Nat) :
    ∀ e ∈ retrieve vw kw vr kr top_k,
      e.final_score = vw * e.vector_score + kw * e.keyword_score
      ∧ ((∀ r ∈ kr, r.chunk_id ≠ e.chunk_id) → e.keyword_score = 0)
      ∧ ((∀ r ∈ vr, r.chunk_id ≠ e.chunk_id) → e.vector_score = 0) := by
  intro e he
  have hm : e ∈ merge_results vw kw vr kr := mem_retrieve_mem_merge vw kw vr kr top_k e he
  rw [merge_results] at hm
  obtain ⟨e2, he2, rfl⟩ := List.mem_map.mp hm
  refine ⟨rfl, fun hkr => ?_, fun hvr => ?_⟩
  · -- the final-score map keeps chunk_id and keyword_score
    show e2.keyword_score = 0
    have hfil := foldl_add_keyword_filter kr (vr.foldl add_vector_result []) e2.chunk_id
      (fun r hr => hkr r hr)
    have he2' : e2 ∈ (kr.foldl add_keyword_result (vr.foldl add_vector_result [])).filter
        (fun e => e.chunk_id = e2.chunk_id) :=
      List.mem_filter.mpr ⟨he2, by simp⟩
    rw [hfil] at he2'
    exact foldl_add_vector_keyword_zero vr [] (by intro e h; cases h) e2
      (List.mem_filter.mp he2').1
  · show e2.vector_score = 0
    refine foldl_add_keyword_vector_zero kr (vr.foldl add_vector_result []) e2.chunk_id
      ?_ e2 he2 rfl
    intro e' he' hid
    rcases mem_foldl_add_vector vr [] e' he' with h | ⟨r, hr, rfl⟩
    · cases h
    · exact absurd (hid ▸ rfl) (hvr r hr)

/-- C1 witness: the fusion equation and the vector-only zero evaluated on a
concrete result list. -/
theorem C1_fusion_scores_witness :
    (⟨"a", 1, 1, 0, 3/5 * 1 + 2/5 * 0⟩ : ScoredCandidate).final_score
        = (3/5 : ℚ) * (⟨"a", 1, 1, 0, 3/5 * 1 + 2/5 * 0⟩ : ScoredCandidate).vector_score
          + (2/5 : ℚ) * (⟨"a", 1, 1, 0, 3/5 * 1 + 2/5 * 0⟩ : ScoredCandidate).keyword_score
    ∧ (⟨"a", 1, 1, 0, 3/5 * 1 + 2/5 * 0⟩ : ScoredCandidate).keyword_score = 0 := by
  have hmem : (⟨"a", 1, 1, 0, 3/5 * 1 + 2/5 * 0⟩ : ScoredCandidate)
      ∈ retrieve (3/5) (2/5) [⟨"a", 1⟩] [] 10 := by
    show (⟨"a", 1, 1, 0, 3/5 * 1 + 2/5 * 0⟩ : ScoredCandidate)
      ∈ [(⟨"a", 1, 1, 0, 3/5 * 1 + 2/5 * 0⟩ : ScoredCandidate)]
    exact List.mem_singleton.mpr rfl
  have h := C1_fusion_scores (3/5) (2/5) [⟨"a", 1⟩] [] 10 _ hmem
  exact ⟨h.1, h.2.1 (fun r hr => absurd hr (List.not_mem_nil r))⟩

/-- C4: the retrieved list has length at most `top_k`, is descending in
`final_score`, equal scores keep the fusion-map order (stability, stated by
filtering at each score value), and the fusion map lists all vector results
first, in their given order, followed by the keyword-only results in their
given order.  Determinism is immediate: `retrieve` is a pure function of the
two collaborator result lists. -/
theorem C4_retrieve_ordering (vw kw : ℚ) (vr kr : List SearchResult) (k : Nat)
    (hv : (vr.map (fun r => r.chunk_id)).Nodup)
    (hk : (kr.map (fun r => r.chunk_id)).Nodup) :
    (retrieve vw kw vr kr k).length ≤ k
    ∧ (retrieve vw kw vr kr k).Pairwise (fun a b => b.final_score ≤ a.final_score)
    ∧ (∀ q : ℚ,
        (sortDescBy (fun e => e.final_score) (merge_results vw kw vr kr)).filter
            (fun e => e.final_score = q) =
          (merge_results vw kw vr kr).filter (fun e => e.final_score = q))
    ∧ (merge_results vw kw vr kr).map (fun e => e.chunk_id) =
        vr.map (fun r => r.chunk_id)
          ++ (kr.filter
                (fun r => !vr.any (fun v => v.chunk_id = r.chunk_id))).map
              (fun r => r.chunk_id) := by
  refine ⟨?_, ?_, ?_, ?_⟩
  · rw [retrieve]
    exact List.length_take_le k _
  · rw [retrieve]
    exact (sortDescBy_pairwise _ _).sublist (List.take_sublist k _)
  · exact fun q => sortDescBy_filter_key (fun e : ScoredCandidate => e.final_score) _ q
  · rw [merge_results]
    have hfinal : ∀ m : List ScoredCandidate,
        (m.map (fun e =>
            { e with final_score := vw * e.vector_score + kw * e.keyword_score })).map
            (fun e => e.chunk_id) = m.map (fun e => e.chunk_id) := by
      intro m
      rw [List.map_map]
      exact List.map_congr_left fun e _ => rfl
    rw [hfinal, foldl_step_ids add_keyword_result add_keyword_result_ids kr _ hk,
      foldl_add_vector_ids vr hv]
    have hany : ∀ (l : List SearchResult) (cid : String),
        (l.map (fun r => r.chunk_id)).any (fun i => i = cid)
          = l.any (fun v => v.chunk_id = cid) := by
      intro l cid
      induction l with
      | nil => rfl
      | cons r0 l0 ih => rw [List.map_cons, List.any_cons, List.any_cons, ih]
    have hck : (fun r : SearchResult => !containsKey (vr.foldl add_vector_result []) r.chunk_id)
        = (fun r : SearchResult => !vr.any (fun v => v.chunk_id = r.chunk_id)) := by
      funext r
      rw [containsKey_eq_any, foldl_add_vector_ids vr hv, hany]
    rw [hck]

/-- C4 witness: length bound and fusion-map ordering on a concrete input in
which chunk "c" is keyword-only. -/
theorem C4_retrieve_ordering_witness :
    (retrieve (3/5) (2/5) [⟨"a", 1⟩, ⟨"b", 1⟩] [⟨"c", 3/2⟩] 2).length ≤ 2
    ∧ (merge_results (3/5) (2/5) [⟨"a", 1⟩, ⟨"b", 1⟩] [⟨"c", 3/2⟩]).map
        (fun e => e.chunk_id) = ["a", "b", "c"] := by
  have h := C4_retrieve_ordering (3/5) (2/5) [⟨"a", 1⟩, ⟨"b", 1⟩] [⟨"c", 3/2⟩] 2
    (by decide) (by decide)
  refine ⟨h.1, ?_⟩
  rw [h.2.2.2]
  decide

/-- The exception value a collaborator may raise.  `retrievalFailure` is the
wrapper the design prescribes; the implementation never constructs it. -/
inductive PyErr where
  | ioError : String → PyErr
  | retrievalFailure : String → PyErr
  deriving Repr, DecidableEq

def PyErr.isRetrievalFailure : PyErr → Bool
  | .retrievalFailure _ => true
  | _ => false

/-- `HybridRetriever.retrieve` with fallible collaborators.  The method body
has no try/except, so an exception from either search call propagates to the
caller unchanged; the vector search runs first. -/
def retrieveE (vw kw : ℚ) (vres kres : Except PyErr (List SearchResult)) (top_k : Nat) :
    Except PyErr (List ScoredCandidate) :=
  match vres with
  | .error e => .error e
  | .ok vr =>
    match kres with
    | .error e => .error e
    | .ok kr => .ok (retrieve vw kw vr kr top_k)

/-- C9 counterexample: when the vector collaborator raises an infrastructure
exception, `retrieve` does fail the whole call, but it re-raises that very
exception instead of a `RetrievalFailure`. -/
theorem C9_counterexample :
    retrieveE (3/5) (2/5) (.error (.ioError "vector index unavailable")) (.ok []) 10
        = .error (.ioError "vector index unavailable")
    ∧ PyErr.isRetrievalFailure (.ioError "vector index unavailable") = false :=
  ⟨rfl, rfl⟩

/-- C9 amended: if either collaborator raises, the whole call fails with the
collaborator's own exception, propagated unchanged (the vector error when both
fail), and no candidate list — in particular no partial one with a zeroed
half — is ever returned. -/
theorem C9_error_propagation (vw kw : ℚ) (vres kres : Except PyErr (List SearchResult))
    (k : Nat) :
    (∀ e, vres = .error e → retrieveE vw kw vres kres k = .error e)
    ∧ (∀ vr e, vres = .ok vr → kres = .error e → retrieveE vw kw vres kres k = .error e)
    ∧ (((∃ e, vres = .error e) ∨ (∃ e, kres = .error e)) →
        ∀ l, retrieveE vw kw vres kres k ≠ .ok l) := by
  refine ⟨fun e hv => by subst hv; rfl, fun vr e hv hk => by subst hv; subst hk; rfl, ?_⟩
  rintro (⟨e, he⟩ | ⟨e, he⟩) l hl
  · subst he
    exact Except.noConfusion hl
  · subst he
    cases vres with
    | error e' => exact Except.noConfusion hl
    | ok vr => exact Except.noConfusion hl

/-- C9 witness: a keyword-side failure propagated unchanged on concrete
inputs. -/
theorem C9_error_propagation_witness :
    retrieveE (3/5) (2/5) (.ok []) (.error (.ioError "bm25 index unavailable")) 10
      = .error (.ioError "bm25 index unavailable") :=
  (C9_error_propagation (3/5) (2/5) (.ok []) (.error (.ioError "bm25 index unavailable")) 10).2.1
    [] (.ioError "bm25 index unavailable") rfl rfl

/-! ## Context builder (src/core/llm_handler.py) -/

/-- `LegalChunk` (src/core/chunker.py), the dict shape consumed by
`_format_chunk` and the validator. -/
structure LegalChunk where
  law_code : String
  law_name : String
  identifier_type : String
  identifier_number : String
  clause : Option String := none
  title : Option String := none
  text : String
  proviso : Option String := none
  explanation : Option String := none
  source_url : String
  chunk_id : String
  deriving Repr, DecidableEq

/-- Python truthiness of `chunk.get(key)` for an optional string field:
both a missing key and an empty string are falsy. -/
def pyTruthy : Option String → Bool
  | none => false
  | some s => s ≠ ""

/-- `LegalLLMHandler._format_chunk`. -/
def format_chunk (chunk : LegalChunk) : String :=
  let titleSuffix := if pyTruthy chunk.title then " - " ++ chunk.title.getD "" else ""
  let parts :=
    ["**" ++ chunk.law_name ++ "**",
     chunk.identifier_type ++ " " ++ chunk.identifier_number ++ titleSuffix,
     "\n" ++ chunk.text]
  let parts :=
    if pyTruthy chunk.proviso then parts ++ ["\nProviso: " ++ chunk.proviso.getD ""]
    else parts
  let parts :=
    if pyTruthy chunk.explanation then
      parts ++ ["\nExplanation: " ++ chunk.explanation.getD ""]
    else parts
  let parts := parts ++ ["\nSource: " ++ chunk.source_url]
  String.intercalate "\n" parts

/-- `len(chunk_text.split()) * 1.3`, the token estimate of a rendered
block. -/
def est_tokens (chunk_text : String) : ℚ := (wordCount chunk_text : ℚ) * (13 / 10)

/-- The loop of `LegalLLMHandler.build_context`: greedily accept rendered
blocks while the running estimate stays within the budget, stop at the first
block that would exceed it. -/
def build_context_parts (chunks : List LegalChunk) (max_tokens current_tokens : ℚ) :
    List String :=
  match chunks with
  | [] => []
  | chunk :: rest =>
    let chunk_text := format_chunk chunk
    let chunk_tokens := est_tokens chunk_text
    if current_tokens + chunk_tokens > max_tokens then []
    else chunk_text :: build_context_parts rest max_tokens (current_tokens + chunk_tokens)

/-- `LegalLLMHandler.build_context` (the workflow calls it with the default
budget of 8000). -/
def build_context (chunks : List LegalChunk) (max_tokens : ℚ) : String :=
  String.intercalate "\n\n---\n\n" (build_context_parts chunks max_tokens 0)

/-! ## Answer validator (src/validation/answer_validator.py) -/

structure ValidationResult where
  valid : Bool
  errors : List String
  warnings : List String
  confidence : String
  deriving Repr, DecidableEq

def required_sections : List String :=
  ["Legal Position:", "Relevant Provisions:", "Disclaimer:"]

def speculative_phrases : List String :=
  ["i think", "probably", "maybe", "might be", "could be interpreted", "in my opinion"]

/-- Regex `\s+\d+` anchored at the head (whether `\d+` takes one digit or
many does not change whether a match exists). -/
def matchWsNum (cs : List Char) : Bool :=
  match dropSpaces1 cs with
  | none => false
  | some r =>
    match r with
    | c :: _ => isDigitC c
    | [] => false

/-- Regex `(Article|Section)\s+\d+` anchored at one position. -/
def citAt (cs : List Char) : Bool :=
  (match dropPat "Article".data cs with
   | some r => matchWsNum r
   | none => false)
  || (match dropPat "Section".data cs with
      | some r => matchWsNum r
      | none => false)

def hasCitationL : List Char → Bool
  | [] => false
  | c :: cs => citAt (c :: cs) || hasCitationL cs

/-- `bool(re.search(r'(Article|Section)\s+\d+', answer))`. -/
def has_citations (answer : String) : Bool := hasCitationL answer.data

/-- Regex `https?://` followed by at least one `\S`, anchored at one
position. -/
def urlAt (cs : List Char) : Bool :=
  match dropPat "http".data cs with
  | none => false
  | some r =>
    (match dropPat "s://".data r with
     | some (c :: _) => !isSpaceC c
     | _ => false)
    || (match dropPat "://".data r with
        | some (c :: _) => !isSpaceC c
        | _ => false)

def hasUrlL : List Char → Bool
  | [] => false
  | c :: cs => urlAt (c :: cs) || hasUrlL cs

/-- `bool(re.search(r'https?://\S+', answer))`. -/
def has_urls (answer : String) : Bool := hasUrlL answer.data

/-- One position of `re.findall(r'(Article|Section)\s+(\d+[a-z]?)', answer)`:
the alternation, then `\s+`, then the tagged number group. -/
def refAt (cs : List Char) : Bool :=
  (match dropPat "Article".data cs with
   | some r =>
     (match dropSpaces1 r with
      | some r2 => (matchNumTag r2).isSome
      | none => false)
   | none => false)
  || (match dropPat "Section".data cs with
      | some r =>
        (match dropSpaces1 r with
         | some r2 => (matchNumTag r2).isSome
         | none => false)
      | none => false)

def refL : List Char → Bool
  | [] => false
  | c :: cs => refAt (c :: cs) || refL cs

/-- `re.findall(r'(Article|Section)\s+(\d+[a-z]?)', answer) != []`.  Only the
emptiness of `referenced_sections` is consumed by the validator, so we embed
the existence of a match. -/
def referenced_sections_exist (answer : String) : Bool := refL answer.data

/-- The body of the required-sections loop of `AnswerValidator.validate`. -/
def sectionStep (answer : String) (vr : ValidationResult) (sec : String) :
    ValidationResult :=
  if !pyContains answer sec then
    { vr with valid := false,
              errors := vr.errors ++ ["Missing required section: " ++ sec] }
  else vr

/-- The citation hard rule of `AnswerValidator.validate`. -/
def citationStep (answer : String) (vr : ValidationResult) : ValidationResult :=
  if !has_citations answer then
    { vr with valid := false,
              errors := vr.errors ++ ["No Article/Section citations found"] }
  else vr

/-- The URL hard rule of `AnswerValidator.validate`. -/
def urlStep (answer : String) (vr : ValidationResult) : ValidationResult :=
  if !has_urls answer then
    { vr with valid := false, errors := vr.errors ++ ["No source URLs found"] }
  else vr

/-- The body of the speculative-language loop of `AnswerValidator.validate`
(`answer_lower` is the lower-cased answer). -/
def specStep (answer_lower : String) (vr : ValidationResult) (phrase : String) :
    ValidationResult :=
  if pyContains answer_lower phrase then
    { vr with warnings := vr.warnings ++ ["Speculative language detected: " ++ phrase],
              confidence := "medium" }
  else vr

/-- The final confidence downgrade of `AnswerValidator.validate`. -/
def confidenceStep (answer : String) (vr : ValidationResult) : ValidationResult :=
  if !referenced_sections_exist answer then { vr with confidence := "low" } else vr

/-- `AnswerValidator.validate`.  `retrieved_chunks` is consumed only to build
the `chunk_ids_in_context` set, which the source never reads. -/
def validate (answer : String) (retrieved_chunks : List LegalChunk) : ValidationResult :=
  let vr0 : ValidationResult := ⟨true, [], [], "high"⟩
  let vr1 := required_sections.foldl (sectionStep answer) vr0
  let vr2 := citationStep answer vr1
  let vr3 := urlStep answer vr2
  let answer_lower := pyLower answer
  let vr4 := speculative_phrases.foldl (specStep answer_lower) vr3
  let _chunk_ids_in_context := retrieved_chunks.map (fun c => c.chunk_id)
  confidenceStep answer vr4

/-! ### Validator step lemmas -/

theorem sectionStep_fold_valid (answer : String) (secs : List String) :
    ∀ vr : ValidationResult,
      (secs.foldl (sectionStep answer) vr).valid
        = (vr.valid && secs.all (fun s => pyContains answer s)) := by
  induction secs with
  | nil => intro vr; simp
  | cons s rest ih =>
    intro vr
    rw [List.foldl_cons, ih, List.all_cons]
    by_cases h : pyContains answer s = true
    · rw [sectionStep, h]
      simp [h]
    · rw [sectionStep]
      simp only [Bool.not_eq_true] at h
      simp [h]

theorem sectionStep_fold_errors_mono (answer : String) (secs : List String) :
    ∀ (vr : ValidationResult) (x : String), x ∈ vr.errors →
      x ∈ (secs.foldl (sectionStep answer) vr).errors := by
  induction secs with
  | nil => intro vr x hx; exact hx
  | cons s rest ih =>
    intro vr x hx
    rw [List.foldl_cons]
    refine ih _ x ?_
    rw [sectionStep]
    by_cases h : pyContains answer s
    · simp [h, hx]
    · simp only [Bool.not_eq_true] at h
      simp [h]
      exact Or.inl hx

theorem sectionStep_fold_errors_mem (answer : String) (secs : List String) :
    ∀ (vr : ValidationResult) (s : String), s ∈ secs → pyContains answer s = false →
      ("Missing required section: " ++ s) ∈ (secs.foldl (sectionStep answer) vr).errors := by
  induction secs with
  | nil => intro vr s hs; cases hs
  | cons s0 rest ih =>
    intro vr s hs hcon
    rw [List.foldl_cons]
    rcases List.mem_cons.mp hs with rfl | hs'
    · refine sectionStep_fold_errors_mono answer rest _ _ ?_
      rw [sectionStep]
      simp [hcon]
    · exact ih _ s hs' hcon

theorem citationStep_eq (answer : String) (vr : ValidationResult) :
    citationStep answer vr =
      ⟨vr.valid && has_citations answer,
       vr.errors
         ++ (if has_citations answer then [] else ["No Article/Section citations found"]),
       vr.warnings, vr.confidence⟩ := by
  rw [citationStep]
  by_cases h : has_citations answer <;> simp [h]

theorem urlStep_eq (answer : String) (vr : ValidationResult) :
    urlStep answer vr =
      ⟨vr.valid && has_urls answer,
       vr.errors ++ (if has_urls answer then [] else ["No source URLs found"]),
       vr.warnings, vr.confidence⟩ := by
  rw [urlStep]
  by_cases h : has_urls answer <;> simp [h]

theorem specStep_fold_valid_errors (low : String) (ps : List String) :
    ∀ vr : ValidationResult,
      (ps.foldl (specStep low) vr).valid = vr.valid
      ∧ (ps.foldl (specStep low) vr).errors = vr.errors := by
  induction ps with
  | nil => intro vr; exact ⟨rfl, rfl⟩
  | cons p rest ih =>
    intro vr
    rw [List.foldl_cons]
    rcases ih (specStep low vr p) with ⟨h1, h2⟩
    rw [h1, h2, specStep]
    by_cases h : pyContains low p <;> simp [h]

theorem specStep_fold_confidence (low : String) (ps : List String) :
    ∀ vr : ValidationResult,
      (ps.foldl (specStep low) vr).confidence =
        if ps.any (fun p => pyContains low p) then "medium" else vr.confidence := by
  induction ps with
  | nil => intro vr; simp
  | cons p rest ih =>
    intro vr
    rw [List.foldl_cons, ih, List.any_cons, specStep]
    by_cases h : pyContains low p
    · simp only [h, if_pos, Bool.true_or, if_true]
      by_cases hr : rest.any (fun p => pyContains low p) <;> simp [hr]
    · simp only [Bool.not_eq_true] at h
      simp [h]

theorem specStep_fold_warnings_mono (low : String) (ps : List String) :
    ∀ (vr : ValidationResult) (x : String), x ∈ vr.warnings →
      x ∈ (ps.foldl (specStep low) vr).warnings := by
  induction ps with
  | nil => intro vr x hx; exact hx
  | cons p rest ih =>
    intro vr x hx
    rw [List.foldl_cons]
    refine ih _ x ?_
    rw [specStep]
    by_cases h : pyContains low p
    · simp [h]
      exact Or.inl hx
    · simp only [Bool.not_eq_true] at h
      simp [h, hx]

theorem specStep_fold_warnings_mem (low : String) (ps : List String) :
    ∀ (vr : ValidationResult) (p : String), p ∈ ps → pyContains low p = true →
      ("Speculative language detected: " ++ p) ∈ (ps.foldl (specStep low) vr).warnings := by
  induction ps with
  | nil => intro vr p hp; cases hp
  | cons p0 rest ih =>
    intro vr p hp hcon
    rw [List.foldl_cons]
    rcases List.mem_cons.mp hp with rfl | hp'
    · refine specStep_fold_warnings_mono low rest _ _ ?_
      rw [specStep]
      simp [hcon]
    · exact ih _ p hp' hcon

theorem confidenceStep_valid_errors_warnings (answer : String) (vr : ValidationResult) :
    (confidenceStep answer vr).valid = vr.valid
    ∧ (confidenceStep answer vr).errors = vr.errors
    ∧ (confidenceStep answer vr).warnings = vr.warnings := by
  rw [confidenceStep]
  by_cases h : referenced_sections_exist answer <;> simp [h]

theorem confidenceStep_confidence (answer : String) (vr : ValidationResult) :
    (confidenceStep answer vr).confidence =
      if referenced_sections_exist answer then vr.confidence else "low" := by
  rw [confidenceStep]
  by_cases h : referenced_sections_exist answer <;> simp [h]

/-- `validate` in terms of its stages: the flat Boolean/append form of the
source's straight-line updates. -/
theorem validate_valid_eq (answer : String) (chunks : List LegalChunk) :
    (validate answer chunks).valid =
      (required_sections.all (fun s => pyContains answer s)
        && has_citations answer && has_urls answer) := by
  rw [validate]
  rcases confidenceStep_valid_errors_warnings answer _ with ⟨h1, _, _⟩
  rw [h1]
  rcases specStep_fold_valid_errors (pyLower answer) speculative_phrases _ with ⟨h2, _⟩
  rw [h2, urlStep_eq, citationStep_eq]
  simp only []
  rw [sectionStep_fold_valid]
  simp [Bool.and_assoc]

theorem sectionStep_fold_warn_conf (answer : String) (secs : List String) :
    ∀ vr : ValidationResult,
      (secs.foldl (sectionStep answer) vr).warnings = vr.warnings
      ∧ (secs.foldl (sectionStep answer) vr).confidence = vr.confidence := by
  induction secs with
  | nil => intro vr; exact ⟨rfl, rfl⟩
  | cons s rest ih =>
    intro vr
    rw [List.foldl_cons]
    rcases ih (sectionStep answer vr s) with ⟨h1, h2⟩
    rw [h1, h2, sectionStep]
    by_cases h : pyContains answer s <;> simp [h]

theorem validate_errors_eq (answer : String) (chunks : List LegalChunk) :
    (validate answer chunks).errors =
      ((required_sections.foldl (sectionStep answer) ⟨true, [], [], "high"⟩).errors
          ++ (if has_citations answer then [] else ["No Article/Section citations found"]))
        ++ (if has_urls answer then [] else ["No source URLs found"]) := by
  rw [validate]
  rcases confidenceStep_valid_errors_warnings answer _ with ⟨_, h1, _⟩
  rw [h1]
  rcases specStep_fold_valid_errors (pyLower answer) speculative_phrases _ with ⟨_, h2⟩
  rw [h2, urlStep_eq, citationStep_eq]

/-- A structurally complete answer: all three markers, the citation
"Section 302", one URL. -/
def sampleValidAnswer : String :=
  "Legal Position: murder is punishable. Relevant Provisions: Section 302. "
    ++ "Disclaimer: consult a lawyer. Source: https://example.com/ipc"

/-! ## Claims C6 and C7 -/

/-- C6: each missing required marker, a missing citation, or a missing URL
forces `valid = false` with its matching entry in `errors`; an answer with
all three markers, the citation "Section 302" and one URL validates
`valid = true`. -/
theorem C6_validator_hard_rules (answer : String) (chunks : List LegalChunk) :
    (∀ sec ∈ required_sections, pyContains answer sec = false →
        (validate answer chunks).valid = false
        ∧ ("Missing required section: " ++ sec) ∈ (validate answer chunks).errors)
    ∧ (has_citations answer = false →
        (validate answer chunks).valid = false
        ∧ "No Article/Section citations found" ∈ (validate answer chunks).errors)
    ∧ (has_urls answer = false →
        (validate answer chunks).valid = false
        ∧ "No source URLs found" ∈ (validate answer chunks).errors)
    ∧ (required_sections.all (fun s => pyContains answer s) = true →
        has_citations answer = true → has_urls answer = true →
        (validate answer chunks).valid = true) := by
  refine ⟨fun sec hsec hcon => ⟨?_, ?_⟩, fun hcit => ⟨?_, ?_⟩, fun hurl => ⟨?_, ?_⟩,
    fun hall hcit hurl => by rw [validate_valid_eq, hall, hcit, hurl]; rfl⟩
  · rw [validate_valid_eq]
    cases hall : required_sections.all (fun s => pyContains answer s) with
    | false => simp [hall]
    | true => exact absurd (List.all_eq_true.mp hall sec hsec) (by simp [hcon])
  · rw [validate_errors_eq]
    exact List.mem_append_left _ (List.mem_append_left _
      (sectionStep_fold_errors_mem answer required_sections _ sec hsec hcon))
  · rw [validate_valid_eq, hcit]
    simp
  · rw [validate_errors_eq]
    refine List.mem_append_left _ (List.mem_append_right _ ?_)
    rw [if_neg (by simp [hcit])]
    exact List.mem_singleton.mpr rfl
  · rw [validate_valid_eq, hurl]
    simp
  · rw [validate_errors_eq]
    refine List.mem_append_right _ ?_
    rw [if_neg (by simp [hurl])]
    exact List.mem_singleton.mpr rfl

/-- C6 witness: an answer with no markers fails with the matching
missing-marker error, and a structurally complete answer (all three markers,
"Section 302", one URL) validates. -/
theorem C6_validator_hard_rules_witness :
    ((validate "no markers here" []).valid = false
      ∧ "Missing required section: Legal Position:"
          ∈ (validate "no markers here" []).errors)
    ∧ (validate sampleValidAnswer []).valid = true :=
  ⟨(C6_validator_hard_rules "no markers here" []).1 "Legal Position:"
      (by decide) (by decide),
   (C6_validator_hard_rules sampleValidAnswer []).2.2.2 (by decide) (by decide) (by decide)⟩

/-- C7: confidence is `low` whenever no `{Type} {Number}` citation occurs,
otherwise `medium` on any case-insensitive speculative-phrase hit, otherwise
`high`; each hit contributes its warning; `valid` is computed from the hard
rules only, independently of confidence. -/
theorem C7_confidence_derivation (answer : String) (chunks : List LegalChunk) :
    (validate answer chunks).confidence =
      (if referenced_sections_exist answer then
        (if speculative_phrases.any (fun p => pyContains (pyLower answer) p) then "medium"
         else "high")
       else "low")
    ∧ (∀ p ∈ speculative_phrases, pyContains (pyLower answer) p = true →
        ("Speculative language detected: " ++ p) ∈ (validate answer chunks).warnings)
    ∧ (validate answer chunks).valid =
        (required_sections.all (fun s => pyContains answer s)
          && has_citations answer && has_urls answer) := by
  refine ⟨?_, fun p hp hcon => ?_, validate_valid_eq answer chunks⟩
  · rw [validate, confidenceStep_confidence, specStep_fold_confidence]
    have hconf3 : (urlStep answer (citationStep answer
        (required_sections.foldl (sectionStep answer)
          ⟨true, [], [], "high"⟩))).confidence = "high" := by
      rw [urlStep_eq, citationStep_eq]
      exact (sectionStep_fold_warn_conf answer required_sections _).2
    rw [hconf3]
  · rw [validate]
    rcases confidenceStep_valid_errors_warnings answer _ with ⟨_, _, h1⟩
    rw [h1]
    exact specStep_fold_warnings_mem (pyLower answer) speculative_phrases _ p hp hcon

/-- C7 witness: an answer with a citation and the phrase "might be" comes out
`medium` with the matching warning. -/
theorem C7_confidence_derivation_witness :
    (validate "Section 302 might be applicable" []).confidence = "medium"
    ∧ "Speculative language detected: might be"
        ∈ (validate "Section 302 might be applicable" []).warnings := by
  have h := C7_confidence_derivation "Section 302 might be applicable" []
  refine ⟨?_, h.2.1 "might be" (by decide) (by decide)⟩
  rw [h.1]
  decide

/-! ## Claim C5 -/

/-- The greedy loop of `build_context`, specified: starting from any running
total within budget it accepts exactly a prefix, keeps the total within
budget, and stops at the first block that would exceed it. -/
theorem build_context_parts_spec (max_tokens : ℚ) :
    ∀ (chunks : List LegalChunk) (cur : ℚ), cur ≤ max_tokens →
      ∃ n, n ≤ chunks.length
        ∧ build_context_parts chunks max_tokens cur = (chunks.take n).map format_chunk
        ∧ cur + ((chunks.take n).map (fun c => est_tokens (format_chunk c))).sum ≤ max_tokens
        ∧ ∀ h : n < chunks.length,
            cur + ((chunks.take n).map (fun c => est_tokens (format_chunk c))).sum
              + est_tokens (format_chunk (chunks.get ⟨n, h⟩)) > max_tokens := by
  intro chunks
  induction chunks with
  | nil =>
    intro cur hcur
    refine ⟨0, Nat.le_refl 0, rfl, by simpa using hcur, fun h => absurd h (by simp)⟩
  | cons c cs ih =>
    intro cur hcur
    by_cases hb : cur + est_tokens (format_chunk c) > max_tokens
    · refine ⟨0, Nat.zero_le _, ?_, by simpa using hcur, fun h => by simpa using hb⟩
      simp only [build_context_parts]
      rw [if_pos hb]
      rfl
    · obtain ⟨n, hn, hparts, hsum, hnext⟩ :=
        ih (cur + est_tokens (format_chunk c)) (not_lt.mp hb)
      refine ⟨n + 1, Nat.succ_le_succ hn, ?_, ?_, ?_⟩
      · simp only [build_context_parts]
        rw [if_neg hb, hparts]
        rfl
      · rw [List.take_succ_cons, List.map_cons, List.sum_cons]
        linarith [hsum]
      · intro h
        rw [List.take_succ_cons, List.map_cons, List.sum_cons]
        have hg : (c :: cs).get ⟨n + 1, h⟩ = cs.get ⟨n, Nat.lt_of_succ_lt_succ h⟩ := rfl
        rw [hg]
        have := hnext (Nat.lt_of_succ_lt_succ h)
        linarith [this]

/-- C5: for a nonnegative budget, `build_context` serializes a prefix of the
chunks whose total token estimate stays within the budget, stops at the
first chunk whose addition would exceed it (no skipping ahead), and returns
the empty string when the first chunk alone exceeds the budget.  The
function is total, so it never fails. -/
theorem C5_build_context_budget (chunks : List LegalChunk) (max_tokens : ℚ)
    (hT : 0 ≤ max_tokens) :
    (∃ n, n ≤ chunks.length
      ∧ build_context chunks max_tokens =
          String.intercalate "\n\n---\n\n" ((chunks.take n).map format_chunk)
      ∧ ((chunks.take n).map (fun c => est_tokens (format_chunk c))).sum ≤ max_tokens
      ∧ ∀ h : n < chunks.length,
          ((chunks.take n).map (fun c => est_tokens (format_chunk c))).sum
            + est_tokens (format_chunk (chunks.get ⟨n, h⟩)) > max_tokens)
    ∧ (∀ c cs, chunks = c :: cs → est_tokens (format_chunk c) > max_tokens →
        build_context chunks max_tokens = "") := by
  constructor
  · obtain ⟨n, hn, hparts, hsum, hnext⟩ := build_context_parts_spec max_tokens chunks 0 hT
    refine ⟨n, hn, ?_, by linarith [hsum], fun h => by linarith [hnext h]⟩
    rw [build_context, hparts]
  · rintro c cs rfl hfirst
    rw [build_context]
    have hp : build_context_parts (c :: cs) max_tokens 0 = [] := by
      simp only [build_context_parts]
      rw [if_pos (by linarith [hfirst])]
    rw [hp]
    rfl

/-- A concrete statute chunk for evaluating the context builder. -/
def sampleChunk : LegalChunk :=
  { law_code := "ipc", law_name := "Indian Penal Code", identifier_type := "Section",
    identifier_number := "302", text := "Punishment for murder.",
    source_url := "https://example.com/ipc/302", chunk_id := "ipc_302" }

/-- C5 witness: the budget theorem evaluated at one chunk under the default
8000-token budget. -/
theorem C5_build_context_budget_witness :
    0 ≤ (8000 : ℚ)
    ∧ ((∃ n, n ≤ [sampleChunk].length
        ∧ build_context [sampleChunk] 8000 =
            String.intercalate "\n\n---\n\n" (([sampleChunk].take n).map format_chunk)
        ∧ (([sampleChunk].take n).map (fun c => est_tokens (format_chunk c))).sum ≤ 8000
        ∧ ∀ h : n < [sampleChunk].length,
            (([sampleChunk].take n).map (fun c => est_tokens (format_chunk c))).sum
              + est_tokens (format_chunk ([sampleChunk].get ⟨n, h⟩)) > 8000)
      ∧ (∀ c cs, [sampleChunk] = c :: cs → est_tokens (format_chunk c) > 8000 →
          build_context [sampleChunk] 8000 = "")) :=
  ⟨by decide, C5_build_context_budget [sampleChunk] 8000 (by decide)⟩

/-! ## Reranker (src/core/reranker.py) and claim C10 -/

/-- A candidate dict as seen by `LegalReranker.rerank`: the keys it reads
(`title`, `text`) and the key it writes (`rerank_score`, absent until the
call attaches it).  The remaining payload is carried through unchanged. -/
structure RerankCandidate where
  title : Option String := none
  text : String
  rerank_score : Option ℚ := none
  deriving Repr, DecidableEq

/-- `LegalReranker.rerank`, with the cross-encoder injected as a pure scoring
function.  Python mutates the caller's list in place (attaching
`rerank_score` to every element and sorting); the first component of the
result is the caller's list after the call, the second the returned value
`candidates[:top_k]` (a slice whose elements are those same mutated dicts). -/
def rerank (pairwiseScore : String → String → ℚ) (query : String)
    (candidates : List RerankCandidate) (top_k : Nat) :
    List RerankCandidate × List RerankCandidate :=
  let pairs := candidates.map (fun candidate =>
    (query, (candidate.title.getD "") ++ " " ++ candidate.text))
  let scores := pairs.map (fun p => pairwiseScore p.1 p.2)
  let scored := List.zipWith
    (fun candidate score => { candidate with rerank_score := some score })
    candidates scores
  let sorted := sortDescBy (fun c => c.rerank_score.getD 0) scored
  (sorted, sorted.take top_k)

theorem zipWith_map_self {α β γ : Type} (f : α → β → γ) (k : α → β) :
    ∀ l : List α, List.zipWith f l (l.map k) = l.map (fun a => f a (k a)) := by
  intro l
  induction l with
  | nil => rfl
  | cons a l ih => simp [List.zipWith, ih]

/-- The per-candidate effect of the attach loop: the candidate with its
cross-encoder score written to `rerank_score`. -/
def attachScore (pairwiseScore : String → String → ℚ) (query : String)
    (c : RerankCandidate) : RerankCandidate :=
  { c with
    rerank_score := some (pairwiseScore query ((c.title.getD "") ++ " " ++ c.text)) }

/-- The attach step of `rerank`: zipping the candidates against their own
scores is the pointwise update. -/
theorem rerank_scored_eq (pairwiseScore : String → String → ℚ) (query : String)
    (candidates : List RerankCandidate) :
    List.zipWith (fun candidate score =>
        { candidate with rerank_score := some score })
      candidates
      ((candidates.map (fun candidate =>
          (query, (candidate.title.getD "") ++ " " ++ candidate.text))).map
        (fun p => pairwiseScore p.1 p.2)) =
      candidates.map (attachScore pairwiseScore query) := by
  rw [List.map_map]
  exact zipWith_map_self _ _ candidates

/-- C10: on any non-empty candidate list (with the scoring model a total
function), `rerank` leaves the caller's list re-ordered with a
`rerank_score` attached to every element — not only the returned top-k — and
the returned value is the `top_k`-prefix of that same mutated list, of
length `min top_k (length candidates)`. -/
theorem C10_rerank_mutation (pairwiseScore : String → String → ℚ) (query : String)
    (candidates : List RerankCandidate) (top_k : Nat) (_hne : candidates ≠ []) :
    (rerank pairwiseScore query candidates top_k).1.length = candidates.length
    ∧ (∀ c ∈ (rerank pairwiseScore query candidates top_k).1, c.rerank_score.isSome)
    ∧ (rerank pairwiseScore query candidates top_k).1.Pairwise
        (fun a b => b.rerank_score.getD 0 ≤ a.rerank_score.getD 0)
    ∧ (rerank pairwiseScore query candidates top_k).1.Perm
        (candidates.map (attachScore pairwiseScore query))
    ∧ (rerank pairwiseScore query candidates top_k).2
        = (rerank pairwiseScore query candidates top_k).1.take top_k
    ∧ (rerank pairwiseScore query candidates top_k).2.length
        = min top_k candidates.length := by
  have hscored := rerank_scored_eq pairwiseScore query candidates
  have h1 : (rerank pairwiseScore query candidates top_k).1
      = sortDescBy (fun c : RerankCandidate => c.rerank_score.getD 0)
          (candidates.map (attachScore pairwiseScore query)) := by
    simp only [rerank]
    rw [hscored]
  have hperm : (rerank pairwiseScore query candidates top_k).1.Perm
      (candidates.map (attachScore pairwiseScore query)) := by
    rw [h1]
    exact sortDescBy_perm _ _
  refine ⟨?_, ?_, ?_, hperm, rfl, ?_⟩
  · rw [hperm.length_eq, List.length_map]
  · intro c hc
    obtain ⟨c0, _, rfl⟩ := List.mem_map.mp (hperm.mem_iff.mp hc)
    rfl
  · rw [h1]
    exact sortDescBy_pairwise _ _
  · show ((rerank pairwiseScore query candidates top_k).1.take top_k).length
        = min top_k candidates.length
    rw [List.length_take, hperm.length_eq, List.length_map]

/-- C10 witness: a singleton candidate list through a constant scorer. -/
theorem C10_rerank_mutation_witness :
    (rerank (fun _ _ => 1) "q" [{ text := "murder" }] 5).1.length = 1
    ∧ (rerank (fun _ _ => 1) "q" [{ text := "murder" }] 5).2
        = (rerank (fun _ _ => 1) "q" [{ text := "murder" }] 5).1.take 5 := by
  have h := C10_rerank_mutation (fun _ _ => 1) "q" [{ text := "murder" }] 5 (by simp)
  exact ⟨h.1, h.2.2.2.2.1⟩

/-! ## Orchestration workflow (src/orchestration/workflow.py) -/

/-- The LangGraph dict state threaded through the five nodes.  Fields mirror
the keys each node writes; `errorSets` instruments how many times some node
executed `state['error'] = str(e)` (it influences no control flow). -/
structure QueryState where
  query : String
  intent : Option LegalIntent := none
  candidates : Option (List LegalChunk) := none
  final_chunks : Option (List LegalChunk) := none
  answer : Option String := none
  context : Option String := none
  validation : Option ValidationResult := none
  error : Option String := none
  errorSets : Nat := 0

/-- The collaborators each node calls, injected as fallible functions: the
retriever (called with `top_k=15`), the reranker (called with `top_k=5`) and
the generating model.  An `Except.error` models a raised exception, carrying
`str(e)`. -/
structure Collaborators where
  retrieveFn : String → Except String (List LegalChunk)
  rerankFn : String → List LegalChunk → Except String (List LegalChunk)
  generateFn : String → String → Except String String

/-- `state['error'] = str(e)` inside a node's `except` block. -/
def setError (s : QueryState) (msg : String) : QueryState :=
  { s with error := some msg, errorSets := s.errorSets + 1 }

/-- `LegalRAGWorkflow._classify_intent_node`: the classifier is a total
function of the query text, so its `except` branch is dead code. -/
def classify_intent_node (s : QueryState) : QueryState :=
  { s with intent := some (classify s.query) }

/-- `LegalRAGWorkflow._retrieve_node`. -/
def retrieve_node (C : Collaborators) (s : QueryState) : QueryState :=
  match C.retrieveFn s.query with
  | .ok candidates => { s with candidates := some candidates }
  | .error e => setError s e

/-- `LegalRAGWorkflow._rerank_node`: reading `state['candidates']` when the
key is missing raises `KeyError('candidates')`, caught by the node and
recorded as `str(e)`, which is `"'candidates'"`. -/
def rerank_node (C : Collaborators) (s : QueryState) : QueryState :=
  match s.candidates with
  | none => setError s "'candidates'"
  | some cands =>
    match C.rerankFn s.query cands with
    | .ok reranked => { s with final_chunks := some reranked }
    | .error e => setError s e

/-- `LegalRAGWorkflow._generate_node`: builds the context with the default
8000-token budget, then calls the model; a missing `final_chunks` key raises
`KeyError('final_chunks')`. -/
def generate_node (C : Collaborators) (s : QueryState) : QueryState :=
  match s.final_chunks with
  | none => setError s "'final_chunks'"
  | some chunks =>
    let context := build_context chunks 8000
    match C.generateFn s.query context with
    | .ok answer => { s with answer := some answer, context := some context }
    | .error e => setError s e

/-- `LegalRAGWorkflow._validate_node`: reads `state['answer']` first, then
`state['final_chunks']`. -/
def validate_node (s : QueryState) : QueryState :=
  match s.answer with
  | none => setError s "'answer'"
  | some ans =>
    match s.final_chunks with
    | none => setError s "'final_chunks'"
    | some chunks => { s with validation := some (validate ans chunks) }

/-- `LegalRAGWorkflow.run`: the five nodes in the graph's linear order,
starting from `{"query": query}`.  Each node is a total state transformer —
no exception crosses the orchestrator boundary. -/
def run_workflow (C : Collaborators) (query : String) : QueryState :=
  validate_node (generate_node C (rerank_node C (retrieve_node C
    (classify_intent_node { query := query }))))

/-! ## Claim C3 -/

/-- Collaborators whose vector/keyword retrieval raises while reranking and
generation would succeed. -/
def failingCollaborators : Collaborators :=
  ⟨fun _ => .error "vector index unavailable",
   fun _ c => .ok c,
   fun _ _ => .ok "generated answer"⟩

/-- C3 counterexample: with a failing retriever, the `error` field is written
by four stages, not exactly one — every downstream stage fails on its missing
input and overwrites it — and the final message is the validate stage's
`KeyError`, not the retrieval error. -/
theorem C3_counterexample :
    (run_workflow failingCollaborators "bail procedure").errorSets = 4
    ∧ (run_workflow failingCollaborators "bail procedure").error
        ≠ some "vector index unavailable"
    ∧ (run_workflow failingCollaborators "bail procedure").error = some "'answer'" := by
  decide

/-- C3 amended: every stage catches its internal exception, records `str(e)`
on the state's `error` field and never raises past the orchestrator (the
nodes are total state transformers); `error` is absent exactly when no stage
failed; but on a retrieval failure the error field is written by all four
remaining stages — each later stage fails on its missing input — with the
last write (the validate stage's `KeyError('answer')`) surviving. -/
theorem C3_error_capture (C : Collaborators) (query : String) :
    ((run_workflow C query).error = none ↔ (run_workflow C query).errorSets = 0)
    ∧ ((run_workflow C query).error = none → (run_workflow C query).validation.isSome)
    ∧ (∀ e, C.retrieveFn query = .error e →
        (run_workflow C query).errorSets = 4
        ∧ (run_workflow C query).error = some "'answer'") := by
  cases hr : C.retrieveFn query with
  | error e =>
    have hrun : run_workflow C query =
        { query := query, intent := some (classify query), error := some "'answer'",
          errorSets := 4 } := by
      simp [run_workflow, classify_intent_node, retrieve_node, rerank_node,
        generate_node, validate_node, setError, hr]
    rw [hrun]
    exact ⟨by simp, by simp, fun e' _ => ⟨rfl, rfl⟩⟩
  | ok cands =>
    cases hk : C.rerankFn query cands with
    | error e =>
      have hrun : run_workflow C query =
          { query := query, intent := some (classify query), candidates := some cands,
            error := some "'answer'", errorSets := 3 } := by
        simp [run_workflow, classify_intent_node, retrieve_node, rerank_node,
          generate_node, validate_node, setError, hr, hk]
      rw [hrun]
      exact ⟨by simp, by simp, fun e' he' => Except.noConfusion he'⟩
    | ok rr =>
      cases hg : C.generateFn query (build_context rr 8000) with
      | error e =>
        have hrun : run_workflow C query =
            { query := query, intent := some (classify query), candidates := some cands,
              final_chunks := some rr, error := some "'answer'", errorSets := 2 } := by
          simp [run_workflow, classify_intent_node, retrieve_node, rerank_node,
            generate_node, validate_node, setError, hr, hk, hg]
        rw [hrun]
        exact ⟨by simp, by simp, fun e' he' => Except.noConfusion he'⟩
      | ok ans =>
        have hrun : run_workflow C query =
            { query := query, intent := some (classify query), candidates := some cands,
              final_chunks := some rr, answer := some ans,
              context := some (build_context rr 8000),
              validation := some (validate ans rr), error := none, errorSets := 0 } := by
          simp [run_workflow, classify_intent_node, retrieve_node, rerank_node,
            generate_node, validate_node, setError, hr, hk, hg]
        rw [hrun]
        exact ⟨by simp, fun _ => rfl, fun e' he' => Except.noConfusion he'⟩

/-- C3 witness: the amended theorem evaluated on the failing retriever. -/
theorem C3_error_capture_witness :
    (run_workflow failingCollaborators "bail procedure").errorSets = 4
    ∧ (run_workflow failingCollaborators "bail procedure").error = some "'answer'" :=
  (C3_error_capture failingCollaborators "bail procedure").2.2
    "vector index unavailable" rfl
